import Mathlib

/-!
Verification of the Semaphore Nanoleaf plugin core (`src/AuroraPlugin.cpp`).

The development shallowly embeds the two components of the plugin:

* the panel Selector (`initPlugin`, lines 104–175): computation of the middle
  slice index, the scan for the slice closest to the middle with at least 3
  panels, the fallback, the sort of the chosen slice's panel ids by centroid
  y-coordinate (descending), and the binding of the three color slots; and
* the cycle Driver (`getPluginFrame`, lines 193–286): the walk over all
  panels producing black frame entries while recording the absolute frame
  index of each slot's bound panel, the overwrite of the active slot's entry
  with its color, the reported sleep time, the reported frame count, and the
  do/while advance of the current color index.

Machine integers are embedded as `Int`/`Nat` (all quantities involved stay
far from 32-bit overflow under the stated preconditions), the C++ `double`
centroid coordinates as `ℚ` (only their ordering is ever used).
-/

namespace Semaphore

/-- An RGB color triple (the plugin's `RGB_t`), 8-bit channels. -/
structure RGB where
  R : Nat
  G : Nat
  B : Nat
deriving DecidableEq

/-- One output frame entry (the SDK's `Frame_t`): panel id, color channels and
a transition time in ticks. -/
structure Frame where
  panelId : Int
  r : Nat
  g : Nat
  b : Nat
  transTime : Int
deriving DecidableEq

/-- The part of the externally supplied layout the Selector reads: the
centroid y-coordinate of each panel id (the comparator at lines 136–153 looks
panel ids up in `layoutData->panels` and reads `shape->getCentroid().y`), and
the frame slices (`frameSlices`, each an ordered list of panel ids).
Precondition of the external collaborator: every panel id referenced by a
slice exists in the layout, so the lookup is total. -/
structure Layout where
  y : Int → ℚ
  slices : List (List Int)

/-- Embeds `int middleFrameSliceIndex = ceil((frameSlicesCount - 1) / 2);`
(line 106).  Both operands of `/` are C ints, so the division truncates
before `std::ceil` ever sees the value; the `ceil` call is applied to an
already-integral quantity and has no effect.  For `n ≥ 1` the result is
`(n-1)/2` rounded down, which Nat division gives exactly; for `n = 0` the C
expression is `ceil((-1)/2) = ceil(0) = 0` (truncated division), which Nat
subtraction and division also give. -/
def middleFrameSliceIndex (n : Nat) : Nat :=
  (n - 1) / 2

/-- `abs(middleFrameSliceIndex - (int)frameSliceIndex)` (line 118), as a
nonnegative `Int`. -/
def distM (m i : Nat) : Int :=
  ((m : Int) - (i : Int)).natAbs

/-- The scan loop of lines 113–125: fold over the slice sizes with the pair
`(minimumMiddleFrameSliceDistance, middlestFrameSliceIndex)` as state,
starting from `(31, -1)`; a slice updates the state exactly when it has at
least `MINIMUM_PANELS_COUNT = 3` panels and its distance to the middle index
is strictly below the minimum seen so far. -/
def scanAux (m i : Nat) (sizes : List Nat) (minD mi : Int) : Int × Int :=
  match sizes with
  | [] => (minD, mi)
  | sz :: rest =>
    if 3 ≤ sz ∧ distM m i < minD then
      scanAux m (i + 1) rest (distM m i) (i : Int)
    else
      scanAux m (i + 1) rest minD mi

/-- Lines 106–130: the index of the chosen slice — the scan result, or the
middle index itself when the scan never updated (`middlestFrameSliceIndex ==
-1`, line 128). -/
def middlestFrameSliceIndex (slices : List (List Int)) : Int :=
  let m := middleFrameSliceIndex slices.length
  let r := scanAux m 0 (slices.map List.length) 31 (-1)
  if r.2 = -1 then (m : Int) else r.2

/-- The chosen slice (`frameSlices[middlestFrameSliceIndex]`, line 133). -/
def chosenSlice (L : Layout) : List Int :=
  L.slices.getD (middlestFrameSliceIndex L.slices).toNat []

/-- The order imposed by the sort comparator of lines 136–153: panel `a`
comes before panel `b` when its centroid y-coordinate is at least as large
(the comparator returns `firstPanelY > secondPanelY`; the corresponding
non-strict total preorder is `y b ≤ y a`). -/
def descY (y : Int → ℚ) (a b : Int) : Prop := y b ≤ y a

instance (y : Int → ℚ) : DecidableRel (descY y) := fun a b =>
  inferInstanceAs (Decidable (y b ≤ y a))

instance (y : Int → ℚ) : IsTotal Int (descY y) :=
  ⟨fun a b => le_total (y b) (y a)⟩

instance (y : Int → ℚ) : IsTrans Int (descY y) :=
  ⟨fun _ _ _ hab hbc => le_trans hbc hab⟩

/-- `middlestPanelIds` after the `sort` call of lines 136–153: the chosen
slice's panel ids, sorted by centroid y-coordinate descending.  `std::sort`
guarantees a permutation of the input ordered by the comparator (order of
ties unspecified); we embed it as insertion sort over the corresponding total
preorder, which satisfies the same contract. -/
def middlestPanelIds (L : Layout) : List Int :=
  List.insertionSort (descY L.y) (chosenSlice L)

/-- `IGNORED_PANEL_ID` (line 52). -/
def IGNORED_PANEL_ID : Int := -1

/-- Lines 155–175: the binding of the three color slots (`colorPanelIds`,
indices `RED = 0`, `YELLOW = 1`, `GREEN = 2`) from the sorted chosen slice. -/
def colorPanelIds (L : Layout) : List Int :=
  let s := middlestPanelIds L
  if 3 ≤ s.length then
    [s.getD 0 0, s.getD 1 0, s.getD 2 0]
  else if s.length = 2 then
    [s.getD 0 0, IGNORED_PANEL_ID, s.getD 1 0]
  else
    [s.getD 0 0, s.getD 0 0, s.getD 0 0]

/-- A frame entry as reset by the first loop of `getPluginFrame`
(lines 206–230): the visited panel's id, color `(0,0,0)`, transition time 1. -/
def blackFrame (pid : Int) : Frame :=
  { panelId := pid, r := 0, g := 0, b := 0, transTime := 1 }

/-- The walk of lines 201–231: visit every panel (the slices having been
flattened in slice order, then within-slice order), emit a black frame entry
for each, and record for each color slot the absolute frame index of the last
visited panel matching that slot's bound id — the YELLOW comparison being
additionally guarded by `!= IGNORED_PANEL_ID` (line 221).  Returns the frame
list and the triple `(red, yellow, green)` of recorded indices, whose
initial values are 0 (lines 196–198). -/
def walkPanels (cp : List Int) (panels : List Int) (index ri yi gi : Nat) :
    List Frame × Nat × Nat × Nat :=
  match panels with
  | [] => ([], ri, yi, gi)
  | pid :: rest =>
    let ri' := if pid = cp.getD 0 0 then index else ri
    let yi' := if pid = cp.getD 1 0 ∧ cp.getD 1 0 ≠ IGNORED_PANEL_ID then index else yi
    let gi' := if pid = cp.getD 2 0 then index else gi
    let w := walkPanels cp rest (index + 1) ri' yi' gi'
    (blackFrame pid :: w.1, w.2)

/-- The overwrite of lines 238–242 / 251–255 / 264–268: replace the entry's
channels by the slot color and set the transition time to 1; the panel id
field is not touched. -/
def applyColor (c : RGB) (f : Frame) : Frame :=
  { panelId := f.panelId, r := c.R, g := c.G, b := c.B, transTime := 1 }

/-- Embeds `*sleepTime = transitionTime * 0.4;` (line 257).  `transitionTime`
is an `int`, `0.4` a `double`; the product is computed in `double` and
converted back to `int`, truncating toward zero.  Because the nearest double
to `0.4` is `0.4·(1+δ)` with `0 < δ < 2⁻⁵²`, the rounded product agrees with
the real number `0.4·t` to well under half an ulp for every |t| ≤ 10¹⁵, so
the converted value is exactly the truncation of `2t/5`, i.e.
`Int.tdiv (2*t) 5` (truncated division, rounding toward zero as C does). -/
def yellowSleepTime (t : Int) : Int := Int.tdiv (2 * t) 5

/-- The inputs `getPluginFrame` reads: the cached frame slices, the Selection
(`colorPanelIds` and `colors`), the configured `transitionTime`, and the
mutable `currentColorIndex` as it stands at the start of the invocation. -/
structure DriverInput where
  frameSlices : List (List Int)
  colorPanelIds : List Int
  colors : List RGB
  transitionTime : Int
  currentColorIndex : Nat

/-- The absolute frame index that the `switch` of lines 234–274 overwrites:
the recorded index of the currently active slot. -/
def activeRecordedIndex (inp : DriverInput) : Nat :=
  let w := walkPanels inp.colorPanelIds inp.frameSlices.flatten 0 0 0 0
  match inp.currentColorIndex with
  | 0 => w.2.1
  | 1 => w.2.2.1
  | 2 => w.2.2.2
  | _ => 0

/-- Lines 193–286, minus the state advance (embedded separately as
`nextColorIndex`): produce the frame list, the reported `sleepTime`, and the
reported `nFrames` (`*nFrames = index`, line 285, i.e. the total panel
count).  The `currentColorIndex ≥ 3` case cannot arise from the state
machine; in C the `switch` would fall through leaving `*sleepTime`
unassigned, so that branch of the embedding is never relied upon. -/
def getPluginFrame (inp : DriverInput) : List Frame × Int × Nat :=
  let panels := inp.frameSlices.flatten
  let w := walkPanels inp.colorPanelIds panels 0 0 0 0
  let fs := w.1
  match inp.currentColorIndex with
  | 0 =>
    (fs.set w.2.1 (applyColor (inp.colors.getD 0 ⟨0, 0, 0⟩) (fs.getD w.2.1 (blackFrame 0))),
     inp.transitionTime, panels.length)
  | 1 =>
    (fs.set w.2.2.1 (applyColor (inp.colors.getD 1 ⟨0, 0, 0⟩) (fs.getD w.2.2.1 (blackFrame 0))),
     yellowSleepTime inp.transitionTime, panels.length)
  | 2 =>
    (fs.set w.2.2.2 (applyColor (inp.colors.getD 2 ⟨0, 0, 0⟩) (fs.getD w.2.2.2 (blackFrame 0))),
     inp.transitionTime, panels.length)
  | _ => (fs, 0, panels.length)

/-- The do/while advance of lines 277–283.  Starting from slot `i < 3`, the
loop's successive candidates are `(i+1) % 3`, `(i+2) % 3`, and then `i`
itself, after which the candidates repeat; the loop stops at the first
candidate not bound to `IGNORED_PANEL_ID`.  When all three slots are ignored
the C loop never terminates, embedded as `none`. -/
def nextColorIndex (cp : List Int) (i : Nat) : Option Nat :=
  let a := (i + 1) % 3
  if cp.getD a 0 ≠ IGNORED_PANEL_ID then some a
  else
    let b := (a + 1) % 3
    if cp.getD b 0 ≠ IGNORED_PANEL_ID then some b
    else
      let c := (b + 1) % 3
      if cp.getD c 0 ≠ IGNORED_PANEL_ID then some c
      else none

/-- The active slot at the start of the n-th Driver invocation (0-based):
`currentColorIndex` is initialized to `RED = 0` (line 71) and advanced once
at the end of every invocation. -/
def slotTrace (cp : List Int) : Nat → Option Nat
  | 0 => some 0
  | n + 1 => (slotTrace cp n).bind (nextColorIndex cp)

/-- The recording pattern of the walk, isolated: scan the panel list with
absolute indices starting at `index`, replacing the accumulator with the
current index whenever the predicate holds.  The result is the index of the
last match, or the initial accumulator when there is none. -/
def trackLast (p : Int → Prop) [DecidablePred p] :
    List Int → Nat → Nat → Nat
  | [], _, acc => acc
  | pid :: rest, index, acc =>
    trackLast p rest (index + 1) (if p pid then index else acc)

/-!  ## Lemmas about the Driver walk -/

theorem walkPanels_fst (cp : List Int) :
    ∀ (panels : List Int) (index ri yi gi : Nat),
      (walkPanels cp panels index ri yi gi).1 = panels.map blackFrame := by
  intro panels
  induction panels with
  | nil => intro index ri yi gi; rfl
  | cons pid rest ih => intro index ri yi gi; simp [walkPanels, ih]

theorem walkPanels_ri (cp : List Int) :
    ∀ (panels : List Int) (index ri yi gi : Nat),
      (walkPanels cp panels index ri yi gi).2.1 =
        trackLast (fun pid => pid = cp.getD 0 0) panels index ri := by
  intro panels
  induction panels with
  | nil => intro index ri yi gi; rfl
  | cons pid rest ih => intro index ri yi gi; simp [walkPanels, trackLast, ih]

theorem walkPanels_yi (cp : List Int) :
    ∀ (panels : List Int) (index ri yi gi : Nat),
      (walkPanels cp panels index ri yi gi).2.2.1 =
        trackLast
          (fun pid => pid = cp.getD 1 0 ∧ cp.getD 1 0 ≠ IGNORED_PANEL_ID)
          panels index yi := by
  intro panels
  induction panels with
  | nil => intro index ri yi gi; rfl
  | cons pid rest ih => intro index ri yi gi; simp [walkPanels, trackLast, ih]

theorem walkPanels_gi (cp : List Int) :
    ∀ (panels : List Int) (index ri yi gi : Nat),
      (walkPanels cp panels index ri yi gi).2.2.2 =
        trackLast (fun pid => pid = cp.getD 2 0) panels index gi := by
  intro panels
  induction panels with
  | nil => intro index ri yi gi; rfl
  | cons pid rest ih => intro index ri yi gi; simp [walkPanels, trackLast, ih]

theorem trackLast_of_none (p : Int → Prop) [DecidablePred p] :
    ∀ (panels : List Int) (index acc : Nat),
      (∀ x ∈ panels, ¬ p x) → trackLast p panels index acc = acc := by
  intro panels
  induction panels with
  | nil => intro index acc _; rfl
  | cons pid rest ih =>
    intro index acc h
    simp only [trackLast]
    rw [if_neg (h pid (by simp)), ih _ _ (fun x hx => h x (by simp [hx]))]

theorem trackLast_found (p : Int → Prop) [DecidablePred p] :
    ∀ (panels : List Int) (index acc : Nat),
      (∃ x ∈ panels, p x) →
      ∃ j, j < panels.length ∧ p (panels.getD j 0) ∧
        trackLast p panels index acc = index + j := by
  intro panels
  induction panels with
  | nil => rintro index acc ⟨x, hx, _⟩; exact absurd hx (List.not_mem_nil x)
  | cons pid rest ih =>
    intro index acc hex
    by_cases hr : ∃ x ∈ rest, p x
    · obtain ⟨j, hj, hpj, heq⟩ := ih (index + 1) (if p pid then index else acc) hr
      refine ⟨j + 1, by simpa using Nat.succ_lt_succ hj, by simpa using hpj, ?_⟩
      simp only [trackLast]
      rw [heq]
      omega
    · have hp : p pid := by
        obtain ⟨x, hx, hpx⟩ := hex
        rcases List.mem_cons.mp hx with rfl | hx'
        · exact hpx
        · exact absurd hpx (by push_neg at hr; exact hr x hx')
      refine ⟨0, by simp, by simpa using hp, ?_⟩
      simp only [trackLast]
      rw [if_pos hp,
        trackLast_of_none p rest _ _ (by push_neg at hr; exact hr)]
      omega

theorem trackLast_cases (p : Int → Prop) [DecidablePred p] :
    ∀ (panels : List Int) (index acc : Nat),
      trackLast p panels index acc = acc ∨
        ∃ j, j < panels.length ∧ trackLast p panels index acc = index + j := by
  intro panels
  induction panels with
  | nil => intro index acc; exact Or.inl rfl
  | cons pid rest ih =>
    intro index acc
    rcases ih (index + 1) (if p pid then index else acc) with h | ⟨j, hj, h⟩ <;>
      simp only [trackLast] <;> rw [h]
    · split_ifs with hp
      · exact Or.inr ⟨0, by simp, by omega⟩
      · exact Or.inl rfl
    · exact Or.inr ⟨j + 1, by simpa using Nat.succ_lt_succ hj, by omega⟩

/-- Full characterization of the scan loop over the remaining slice sizes,
processed from global index `i` with incoming state `(D, c)`: either the
state never updates (and then every remaining qualifying slice lies at
distance at least `D` from the middle), or the final candidate is the first
remaining qualifying slice of minimal distance, strictly below `D`. -/
theorem scanAux_spec (m : Nat) :
    ∀ (sizes : List Nat) (i : Nat) (D c : Int),
      (scanAux m i sizes D c = (D, c) ∧
        ∀ j, j < sizes.length → 3 ≤ sizes.getD j 0 → D ≤ distM m (i + j))
      ∨ (∃ j, j < sizes.length ∧ 3 ≤ sizes.getD j 0 ∧
          scanAux m i sizes D c = (distM m (i + j), ((i + j : Nat) : Int)) ∧
          distM m (i + j) < D ∧
          ∀ k, k < sizes.length → 3 ≤ sizes.getD k 0 →
            (distM m (i + j) < distM m (i + k) ∨
             (distM m (i + j) = distM m (i + k) ∧ j ≤ k))) := by
  intro sizes
  induction sizes with
  | nil =>
    intro i D c
    exact Or.inl ⟨rfl, fun j hj => absurd hj (by simp)⟩
  | cons sz rest ih =>
    intro i D c
    by_cases hcond : 3 ≤ sz ∧ distM m i < D
    · rcases ih (i + 1) (distM m i) (i : Int) with ⟨heq, hall⟩ |
        ⟨j, hj, hq, heq, hlt, hmin⟩
      · refine Or.inr ⟨0, by simp, by simpa using hcond.1, ?_, ?_, ?_⟩
        · simp only [scanAux]
          rw [if_pos hcond, heq]
          norm_num
        · simpa using hcond.2
        · intro k hk hq3
          match k with
          | 0 => exact Or.inr ⟨by norm_num, Nat.le_refl 0⟩
          | k + 1 =>
            have hk' : k < rest.length := by
              simp only [List.length_cons] at hk; omega
            have h1 := hall k hk' (by simpa using hq3)
            have h2 : i + 1 + k = i + (k + 1) := by omega
            rw [h2] at h1
            rcases h1.lt_or_eq with hlt' | heq'
            · exact Or.inl (by simpa using hlt')
            · exact Or.inr ⟨by simpa using heq', Nat.zero_le _⟩
      · refine Or.inr ⟨j + 1, by simpa using Nat.succ_lt_succ hj,
          by simpa using hq, ?_, ?_, ?_⟩
        · simp only [scanAux]
          rw [if_pos hcond, heq]
          have h2 : i + 1 + j = i + (j + 1) := by omega
          rw [h2]
        · have h2 : i + 1 + j = i + (j + 1) := by omega
          rw [h2] at hlt
          exact lt_trans hlt hcond.2
        · intro k hk hq3
          match k with
          | 0 =>
            have h2 : i + 1 + j = i + (j + 1) := by omega
            rw [h2] at hlt
            exact Or.inl (by simpa using hlt)
          | k + 1 =>
            have hk' : k < rest.length := by
              simp only [List.length_cons] at hk; omega
            have h1 := hmin k hk' (by simpa using hq3)
            have h2 : i + 1 + j = i + (j + 1) := by omega
            have h3 : i + 1 + k = i + (k + 1) := by omega
            rw [h2, h3] at h1
            rcases h1 with h1 | ⟨h1a, h1b⟩
            · exact Or.inl h1
            · exact Or.inr ⟨h1a, by omega⟩
    · rcases ih (i + 1) D c with ⟨heq, hall⟩ | ⟨j, hj, hq, heq, hlt, hmin⟩
      · refine Or.inl ⟨?_, ?_⟩
        · simp only [scanAux]
          rw [if_neg hcond, heq]
        · intro j hj hq3
          match j with
          | 0 =>
            have hsz : 3 ≤ sz := by simpa using hq3
            have : ¬ distM m i < D := fun hd => hcond ⟨hsz, hd⟩
            have h0 : i + 0 = i := by omega
            rw [h0]
            omega
          | j + 1 =>
            have hj' : j < rest.length := by
              simp only [List.length_cons] at hj; omega
            have h1 := hall j hj' (by simpa using hq3)
            have h2 : i + 1 + j = i + (j + 1) := by omega
            rw [h2] at h1
            exact h1
      · refine Or.inr ⟨j + 1, by simpa using Nat.succ_lt_succ hj,
          by simpa using hq, ?_, ?_, ?_⟩
        · simp only [scanAux]
          rw [if_neg hcond, heq]
          have h2 : i + 1 + j = i + (j + 1) := by omega
          rw [h2]
        · have h2 : i + 1 + j = i + (j + 1) := by omega
          rw [h2] at hlt
          exact hlt
        · intro k hk hq3
          match k with
          | 0 =>
            have hsz : 3 ≤ sz := by simpa using hq3
            have hd : ¬ distM m i < D := fun hd => hcond ⟨hsz, hd⟩
            have h2 : i + 1 + j = i + (j + 1) := by omega
            rw [h2] at hlt
            refine Or.inl ?_
            have h0 : i + 0 = i := by omega
            rw [h0]
            omega
          | k + 1 =>
            have hk' : k < rest.length := by
              simp only [List.length_cons] at hk; omega
            have h1 := hmin k hk' (by simpa using hq3)
            have h2 : i + 1 + j = i + (j + 1) := by omega
            have h3 : i + 1 + k = i + (k + 1) := by omega
            rw [h2, h3] at h1
            rcases h1 with h1 | ⟨h1a, h1b⟩
            · exact Or.inl h1
            · exact Or.inr ⟨h1a, by omega⟩

/-- The common shape of the overwrite step: coloring position `r` of the
all-black frame list yields the active entry at `r` and black entries with
transition time 1 everywhere else. -/
theorem set_active_shape (panels : List Int) (c : RGB) (x : Int) (r : Nat)
    (hr : r < panels.length) (hx : panels.getD r 0 = x)
    (hc : ¬ (c.R = 0 ∧ c.G = 0 ∧ c.B = 0)) :
    ∃ p, p < ((panels.map blackFrame).set r
        (applyColor c ((panels.map blackFrame).getD r (blackFrame 0)))).length ∧
      ((panels.map blackFrame).set r
          (applyColor c ((panels.map blackFrame).getD r (blackFrame 0)))).getD p
          (blackFrame 0) =
        { panelId := x, r := c.R, g := c.G, b := c.B, transTime := 1 } ∧
      ¬ (c.R = 0 ∧ c.G = 0 ∧ c.B = 0) ∧
      ∀ q, q < ((panels.map blackFrame).set r
          (applyColor c ((panels.map blackFrame).getD r (blackFrame 0)))).length →
        q ≠ p →
        (((panels.map blackFrame).set r
            (applyColor c ((panels.map blackFrame).getD r (blackFrame 0)))).getD q
            (blackFrame 0)).r = 0 ∧
        (((panels.map blackFrame).set r
            (applyColor c ((panels.map blackFrame).getD r (blackFrame 0)))).getD q
            (blackFrame 0)).g = 0 ∧
        (((panels.map blackFrame).set r
            (applyColor c ((panels.map blackFrame).getD r (blackFrame 0)))).getD q
            (blackFrame 0)).b = 0 ∧
        (((panels.map blackFrame).set r
            (applyColor c ((panels.map blackFrame).getD r (blackFrame 0)))).getD q
            (blackFrame 0)).transTime = 1 := by
  have hrm : r < (panels.map blackFrame).length := by simpa using hr
  have hget : (panels.map blackFrame).getD r (blackFrame 0) =
      blackFrame (panels.getD r 0) := by
    simp [List.getD_eq_getElem?_getD, List.getElem?_eq_getElem, hr, hrm]
  refine ⟨r, by simpa using hr, ?_, hc, ?_⟩
  · have hset : ((panels.map blackFrame).set r
        (applyColor c ((panels.map blackFrame).getD r (blackFrame 0)))).getD r
        (blackFrame 0) =
        applyColor c ((panels.map blackFrame).getD r (blackFrame 0)) := by
      simp [List.getD_eq_getElem?_getD, List.getElem?_set_self hrm]
    rw [hset, hget, hx]
    rfl
  · intro q hq hqr
    have hq' : q < (panels.map blackFrame).length := by simpa using hq
    have hset : ((panels.map blackFrame).set r
        (applyColor c ((panels.map blackFrame).getD r (blackFrame 0)))).getD q
        (blackFrame 0) = (panels.map blackFrame).getD q (blackFrame 0) := by
      simp [List.getD_eq_getElem?_getD, List.getElem?_set_ne (Ne.symm hqr)]
    have hgetq : (panels.map blackFrame).getD q (blackFrame 0) =
        blackFrame (panels.getD q 0) := by
      simp [List.getD_eq_getElem?_getD, List.getElem?_eq_getElem, hq',
        (by simpa using hq' : q < panels.length)]
    rw [hset, hgetq]
    exact ⟨rfl, rfl, rfl, rfl⟩

/-!  ## Theorems -/

/-- C2: the claim states that the Selector's middle index equals
`ceil((N-1)/2)`, rounding toward the slice after the exact center for even
`N`.  The code (line 106) truncates `(frameSlicesCount - 1) / 2` in integer
arithmetic before `std::ceil` is applied, so it computes `floor((N-1)/2)`:
already at slice count `N = 2` the code yields middle index `0` while
`ceil((2-1)/2) = 1`.  The vacuous `std::ceil` call shows the ceiling was the
intent, so this is a slip in the code. -/
theorem middle_index_even_truncates :
    middleFrameSliceIndex 2 = 0 ∧ (⌈((2 : ℚ) - 1) / 2⌉ : ℤ) = 1 := by
  refine ⟨rfl, ?_⟩
  rw [Int.ceil_eq_iff]
  norm_num

/-- C4: starting from the fresh initial state (current slot `RED = 0`), the
active-slot sequence over repeated Driver invocations is
RED, YELLOW, GREEN, RED, … (i.e. `n % 3`) when all three slots are bound to
real panels, and RED, GREEN, RED, GREEN, … (YELLOW skipped) when the YELLOW
slot is bound to the ignored sentinel. -/
theorem slot_cycle_sequence (cp : List Int) (n : Nat) :
    ((∀ j, j < 3 → cp.getD j 0 ≠ IGNORED_PANEL_ID) →
      slotTrace cp n = some (n % 3))
    ∧ ((cp.getD 0 0 ≠ IGNORED_PANEL_ID ∧ cp.getD 1 0 = IGNORED_PANEL_ID ∧
        cp.getD 2 0 ≠ IGNORED_PANEL_ID) →
      slotTrace cp n = some (if n % 2 = 0 then 0 else 2)) := by
  constructor
  · intro h
    have h0 := h 0 (by omega)
    have h1 := h 1 (by omega)
    have h2 := h 2 (by omega)
    simp only [List.getD_eq_getElem?_getD] at h0 h1 h2
    induction n with
    | zero => rfl
    | succ n ih =>
      rw [slotTrace, ih]
      have hcase : n % 3 = 0 ∨ n % 3 = 1 ∨ n % 3 = 2 := by omega
      rcases hcase with hc | hc | hc <;> rw [hc] <;>
        [ (have he : (n + 1) % 3 = 1 := by omega);
          (have he : (n + 1) % 3 = 2 := by omega);
          (have he : (n + 1) % 3 = 0 := by omega)] <;>
        rw [he] <;> simp [nextColorIndex, h0, h1, h2]
  · rintro ⟨h0, h1, h2⟩
    simp only [List.getD_eq_getElem?_getD] at h0 h1 h2
    induction n with
    | zero => rfl
    | succ n ih =>
      rw [slotTrace, ih]
      by_cases hn : n % 2 = 0
      · rw [if_pos hn, if_neg (by omega : ¬ (n + 1) % 2 = 0)]
        simp [nextColorIndex, h1, h2]
      · rw [if_neg hn, if_pos (by omega : (n + 1) % 2 = 0)]
        simp [nextColorIndex, h0]

/-- Witness for C4: the two scenarios evaluated at concrete selections and
tick counts. -/
theorem slot_cycle_sequence_witness :
    slotTrace [10, 20, 30] 4 = some 1 ∧ slotTrace [10, -1, 30] 5 = some 2 := by
  constructor
  · have h := (slot_cycle_sequence [10, 20, 30] 4).1 (by decide)
    simpa using h
  · have h := (slot_cycle_sequence [10, -1, 30] 5).2 (by decide)
    simpa using h

/-- C9: under the Selection invariant (some slot is bound to a real panel),
the do/while slot advance terminates on every invocation: from any slot
`i < 3` it reaches, within the bounded unrolling of at most three candidate
checks, a slot that is not bound to the ignored sentinel. -/
theorem advance_terminates (cp : List Int) (i : Nat) (hi : i < 3)
    (hv : ∃ j, j < 3 ∧ cp.getD j 0 ≠ IGNORED_PANEL_ID) :
    ∃ k, nextColorIndex cp i = some k ∧ k < 3 ∧
      cp.getD k 0 ≠ IGNORED_PANEL_ID := by
  obtain ⟨j, hj, hne⟩ := hv
  have hj' : j = 0 ∨ j = 1 ∨ j = 2 := by omega
  have hi' : i = 0 ∨ i = 1 ∨ i = 2 := by omega
  simp only [List.getD_eq_getElem?_getD] at hne ⊢
  rcases hi' with rfl | rfl | rfl
  · by_cases h1 : cp[1]?.getD 0 ≠ IGNORED_PANEL_ID
    · exact ⟨1, by simp [nextColorIndex, h1], by omega, h1⟩
    · by_cases h2 : cp[2]?.getD 0 ≠ IGNORED_PANEL_ID
      · exact ⟨2, by simp [nextColorIndex, h1, h2], by omega, h2⟩
      · have h0 : cp[0]?.getD 0 ≠ IGNORED_PANEL_ID := by
          rcases hj' with rfl | rfl | rfl
          · exact hne
          · exact absurd hne h1
          · exact absurd hne h2
        exact ⟨0, by simp [nextColorIndex, h1, h2, h0], by omega, h0⟩
  · by_cases h2 : cp[2]?.getD 0 ≠ IGNORED_PANEL_ID
    · exact ⟨2, by simp [nextColorIndex, h2], by omega, h2⟩
    · by_cases h0 : cp[0]?.getD 0 ≠ IGNORED_PANEL_ID
      · exact ⟨0, by simp [nextColorIndex, h2, h0], by omega, h0⟩
      · have h1 : cp[1]?.getD 0 ≠ IGNORED_PANEL_ID := by
          rcases hj' with rfl | rfl | rfl
          · exact absurd hne h0
          · exact hne
          · exact absurd hne h2
        exact ⟨1, by simp [nextColorIndex, h2, h0, h1], by omega, h1⟩
  · by_cases h0 : cp[0]?.getD 0 ≠ IGNORED_PANEL_ID
    · exact ⟨0, by simp [nextColorIndex, h0], by omega, h0⟩
    · by_cases h1 : cp[1]?.getD 0 ≠ IGNORED_PANEL_ID
      · exact ⟨1, by simp [nextColorIndex, h0, h1], by omega, h1⟩
      · have h2 : cp[2]?.getD 0 ≠ IGNORED_PANEL_ID := by
          rcases hj' with rfl | rfl | rfl
          · exact absurd hne h0
          · exact absurd hne h1
          · exact hne
        exact ⟨2, by simp [nextColorIndex, h0, h1, h2], by omega, h2⟩

/-- Witness for C9: a selection with YELLOW ignored, advancing from RED. -/
theorem advance_terminates_witness :
    ∃ k, nextColorIndex [7, -1, 9] 0 = some k ∧ k < 3 ∧
      List.getD [7, -1, 9] k 0 ≠ IGNORED_PANEL_ID :=
  advance_terminates [7, -1, 9] 0 (by decide) ⟨0, by decide, by decide⟩

/-- C6 (amended): on every invocation the reported delay equals the
configured base transition time when the active slot is RED or GREEN; when
the active slot is YELLOW it equals the integer truncation of 0.4 times the
base (`yellowSleepTime`), which coincides with 0.4 times the base exactly
when the base is a multiple of 5 (as the default 50 is). -/
theorem sleep_time_spec (inp : DriverInput) :
    ((inp.currentColorIndex = 0 ∨ inp.currentColorIndex = 2) →
      (getPluginFrame inp).2.1 = inp.transitionTime)
    ∧ (inp.currentColorIndex = 1 →
      (getPluginFrame inp).2.1 = yellowSleepTime inp.transitionTime
      ∧ ∀ k : Int, inp.transitionTime = 5 * k →
          5 * (getPluginFrame inp).2.1 = 2 * inp.transitionTime) := by
  constructor
  · rintro (h | h) <;> simp [getPluginFrame, h]
  · intro h
    refine ⟨by simp [getPluginFrame, h], ?_⟩
    intro k hk
    simp only [getPluginFrame, h, yellowSleepTime, hk]
    rw [show (2 : Int) * (5 * k) = 5 * (2 * k) by ring,
      Int.mul_tdiv_cancel_left _ (by norm_num)]

/-- The concrete Driver input refuting C6 as literally stated: YELLOW is the
active slot and the configured base transition time is 1. -/
def yellowBaseOneInput : DriverInput :=
  { frameSlices := [[1, 2, 3]]
    colorPanelIds := [3, 2, 1]
    colors := [⟨255, 0, 0⟩, ⟨255, 255, 0⟩, ⟨0, 255, 0⟩]
    transitionTime := 1
    currentColorIndex := 1 }

/-- Counterexample for C6 as stated: with base transition time 1 and YELLOW
active, the code reports delay `(int)(1 * 0.4) = 0`, which is not 0.4 times
the base. -/
theorem sleep_time_not_exact :
    ((getPluginFrame yellowBaseOneInput).2.1 : ℚ) ≠
      (2 / 5) * (yellowBaseOneInput.transitionTime : ℚ) := by
  have h : (getPluginFrame yellowBaseOneInput).2.1 = 0 := rfl
  have h' : yellowBaseOneInput.transitionTime = 1 := rfl
  rw [h, h']
  norm_num

/-- A concrete Driver input with RED active and base transition time 50. -/
def redBaseFiftyInput : DriverInput :=
  { frameSlices := [[1, 2, 3]]
    colorPanelIds := [3, 2, 1]
    colors := [⟨255, 0, 0⟩, ⟨255, 255, 0⟩, ⟨0, 255, 0⟩]
    transitionTime := 50
    currentColorIndex := 0 }

/-- Witness for C6: concrete evaluations of both delay cases. -/
theorem sleep_time_spec_witness :
    (getPluginFrame redBaseFiftyInput).2.1 = redBaseFiftyInput.transitionTime
    ∧ (getPluginFrame yellowBaseOneInput).2.1 =
        yellowSleepTime yellowBaseOneInput.transitionTime :=
  ⟨(sleep_time_spec redBaseFiftyInput).1 (Or.inl rfl),
   ((sleep_time_spec yellowBaseOneInput).2 rfl).1⟩

/-- The property claim C5 asserts of one Driver invocation's output: some
position holds the panel bound to the active slot, colored with the active
slot's color (which is not black) at transition time 1, and every other
position is exactly `(0,0,0)` with transition time 1. -/
def oneLitFrame (inp : DriverInput) : Prop :=
  ∃ p, p < (getPluginFrame inp).1.length ∧
    ((getPluginFrame inp).1.getD p (blackFrame 0) =
      { panelId := inp.colorPanelIds.getD inp.currentColorIndex 0
        r := (inp.colors.getD inp.currentColorIndex ⟨0, 0, 0⟩).R
        g := (inp.colors.getD inp.currentColorIndex ⟨0, 0, 0⟩).G
        b := (inp.colors.getD inp.currentColorIndex ⟨0, 0, 0⟩).B
        transTime := 1 }) ∧
    ¬ ((inp.colors.getD inp.currentColorIndex ⟨0, 0, 0⟩).R = 0 ∧
       (inp.colors.getD inp.currentColorIndex ⟨0, 0, 0⟩).G = 0 ∧
       (inp.colors.getD inp.currentColorIndex ⟨0, 0, 0⟩).B = 0) ∧
    ∀ q, q < (getPluginFrame inp).1.length → q ≠ p →
      ((getPluginFrame inp).1.getD q (blackFrame 0)).r = 0 ∧
      ((getPluginFrame inp).1.getD q (blackFrame 0)).g = 0 ∧
      ((getPluginFrame inp).1.getD q (blackFrame 0)).b = 0 ∧
      ((getPluginFrame inp).1.getD q (blackFrame 0)).transTime = 1

/-- Uniform characterization of one Driver invocation for a valid active
slot: the output is the all-black walk with the active slot's recorded entry
recolored, the case-dependent sleep time, and the total panel count. -/
theorem getPluginFrame_eq (inp : DriverInput)
    (hidx : inp.currentColorIndex < 3) :
    getPluginFrame inp =
      ((inp.frameSlices.flatten.map blackFrame).set (activeRecordedIndex inp)
        (applyColor (inp.colors.getD inp.currentColorIndex ⟨0, 0, 0⟩)
          ((inp.frameSlices.flatten.map blackFrame).getD
            (activeRecordedIndex inp) (blackFrame 0))),
       (if inp.currentColorIndex = 1 then yellowSleepTime inp.transitionTime
        else inp.transitionTime),
       inp.frameSlices.flatten.length) := by
  rcases (by omega : inp.currentColorIndex = 0 ∨ inp.currentColorIndex = 1 ∨
      inp.currentColorIndex = 2) with h | h | h <;>
    simp only [getPluginFrame, activeRecordedIndex, h] <;>
    rw [walkPanels_fst] <;> simp

/-- For a valid, non-ignored, present active slot, the recorded index of the
active slot points at an occurrence of its bound panel id in the flattened
panel walk. -/
theorem activeRecordedIndex_found (inp : DriverInput)
    (hidx : inp.currentColorIndex < 3)
    (hne : inp.colorPanelIds.getD inp.currentColorIndex 0 ≠ IGNORED_PANEL_ID)
    (hmem : inp.colorPanelIds.getD inp.currentColorIndex 0 ∈
      inp.frameSlices.flatten) :
    ∃ j, j < inp.frameSlices.flatten.length ∧
      inp.frameSlices.flatten.getD j 0 =
        inp.colorPanelIds.getD inp.currentColorIndex 0 ∧
      activeRecordedIndex inp = j := by
  rcases (by omega : inp.currentColorIndex = 0 ∨ inp.currentColorIndex = 1 ∨
      inp.currentColorIndex = 2) with h | h | h <;>
    rw [h] at hne hmem ⊢ <;> simp only [activeRecordedIndex, h]
  · rw [walkPanels_ri]
    obtain ⟨j, hj, hpj, heq⟩ :=
      trackLast_found (fun pid => pid = inp.colorPanelIds.getD 0 0)
        inp.frameSlices.flatten 0 0 ⟨_, hmem, rfl⟩
    exact ⟨j, hj, by simpa using hpj, by rw [heq]; omega⟩
  · rw [walkPanels_yi]
    obtain ⟨j, hj, hpj, heq⟩ :=
      trackLast_found
        (fun pid => pid = inp.colorPanelIds.getD 1 0 ∧
          inp.colorPanelIds.getD 1 0 ≠ IGNORED_PANEL_ID)
        inp.frameSlices.flatten 0 0 ⟨_, hmem, rfl, hne⟩
    exact ⟨j, hj, by simpa using hpj.1, by rw [heq]; omega⟩
  · rw [walkPanels_gi]
    obtain ⟨j, hj, hpj, heq⟩ :=
      trackLast_found (fun pid => pid = inp.colorPanelIds.getD 2 0)
        inp.frameSlices.flatten 0 0 ⟨_, hmem, rfl⟩
    exact ⟨j, hj, by simpa using hpj, by rw [heq]; omega⟩

/-- C5: on every Driver invocation whose active slot is bound to a real,
present panel and whose active color is not black, exactly one frame entry is
non-black — the one for the panel bound to the active slot, set to that
slot's color — every other entry is exactly `(0,0,0)`, and all entries have
transition time 1.  (The 1-panel degraded case is the instance where all
slots are bound to the same single panel.) -/
theorem single_active_panel (inp : DriverInput)
    (hidx : inp.currentColorIndex < 3)
    (hne : inp.colorPanelIds.getD inp.currentColorIndex 0 ≠ IGNORED_PANEL_ID)
    (hmem : inp.colorPanelIds.getD inp.currentColorIndex 0 ∈
      inp.frameSlices.flatten)
    (hc : ¬ ((inp.colors.getD inp.currentColorIndex ⟨0, 0, 0⟩).R = 0 ∧
             (inp.colors.getD inp.currentColorIndex ⟨0, 0, 0⟩).G = 0 ∧
             (inp.colors.getD inp.currentColorIndex ⟨0, 0, 0⟩).B = 0)) :
    oneLitFrame inp := by
  obtain ⟨j, hj, hx, hr⟩ := activeRecordedIndex_found inp hidx hne hmem
  unfold oneLitFrame
  simp only [getPluginFrame_eq inp hidx, hr]
  exact set_active_shape _ _ _ j hj hx hc

/-- A concrete Driver input for the C5 witness: the 1-panel degraded case
on a 2-panel layout, GREEN active. -/
def greenActiveInput : DriverInput :=
  { frameSlices := [[4], [6]]
    colorPanelIds := [6, 6, 6]
    colors := [⟨255, 0, 0⟩, ⟨255, 255, 0⟩, ⟨0, 255, 0⟩]
    transitionTime := 50
    currentColorIndex := 2 }

/-- Witness for C5 at a concrete invocation. -/
theorem single_active_panel_witness : oneLitFrame greenActiveInput :=
  single_active_panel greenActiveInput (by decide) (by decide) (by decide)
    (by decide)

/-- The property claim C7 asserts of one Driver invocation: the reported
frame count equals the total panel count across all slices, exactly one
entry is produced per panel in slice order then within-slice order (so the
entries' panel ids are exactly the flattened slices), and the single
overwrite lands strictly below the reported count. -/
def framesWellFormed (inp : DriverInput) : Prop :=
  (getPluginFrame inp).2.2 = inp.frameSlices.flatten.length ∧
  (getPluginFrame inp).1.length = (getPluginFrame inp).2.2 ∧
  (getPluginFrame inp).1.map Frame.panelId = inp.frameSlices.flatten ∧
  activeRecordedIndex inp < (getPluginFrame inp).2.2

theorem activeRecordedIndex_lt (inp : DriverInput)
    (hidx : inp.currentColorIndex < 3)
    (hp : 1 ≤ inp.frameSlices.flatten.length) :
    activeRecordedIndex inp < inp.frameSlices.flatten.length := by
  rcases (by omega : inp.currentColorIndex = 0 ∨ inp.currentColorIndex = 1 ∨
      inp.currentColorIndex = 2) with h | h | h <;>
    simp only [activeRecordedIndex, h]
  · rw [walkPanels_ri]
    rcases trackLast_cases (fun pid => pid = inp.colorPanelIds.getD 0 0)
        inp.frameSlices.flatten 0 0 with he | ⟨j, hj, he⟩ <;>
      rw [he] <;> omega
  · rw [walkPanels_yi]
    rcases trackLast_cases
        (fun pid => pid = inp.colorPanelIds.getD 1 0 ∧
          inp.colorPanelIds.getD 1 0 ≠ IGNORED_PANEL_ID)
        inp.frameSlices.flatten 0 0 with he | ⟨j, hj, he⟩ <;>
      rw [he] <;> omega
  · rw [walkPanels_gi]
    rcases trackLast_cases (fun pid => pid = inp.colorPanelIds.getD 2 0)
        inp.frameSlices.flatten 0 0 with he | ⟨j, hj, he⟩ <;>
      rw [he] <;> omega

/-- Overwriting position `r` of the all-black list with a recolored copy of
its own entry does not change the recorded panel ids. -/
theorem map_panelId_set (panels : List Int) (c : RGB) (r : Nat)
    (hr : r < panels.length) :
    ((panels.map blackFrame).set r
        (applyColor c ((panels.map blackFrame).getD r (blackFrame 0)))).map
        Frame.panelId = panels := by
  apply List.ext_getElem
  · simp
  · intro i h1 h2
    by_cases hir : i = r
    · subst hir
      have hrm : i < (panels.map blackFrame).length := by simpa using hr
      simp [List.getD_eq_getElem?_getD, List.getElem?_eq_getElem hrm,
        List.getElem?_eq_getElem hr, applyColor, blackFrame]
    · simp [List.getElem_set_ne (Ne.symm hir), blackFrame]

/-- C7: on every invocation (with at least one panel in the layout) the
Driver writes exactly one frame entry per panel, in slice order then
within-slice order; the reported frame count equals the total panel count
regardless of the active slot; and the overwrite never touches an index at
or beyond the reported count. -/
theorem frame_count_and_bounds (inp : DriverInput)
    (hidx : inp.currentColorIndex < 3)
    (hp : 1 ≤ inp.frameSlices.flatten.length) :
    framesWellFormed inp := by
  have hlt := activeRecordedIndex_lt inp hidx hp
  unfold framesWellFormed
  simp only [getPluginFrame_eq inp hidx]
  exact ⟨trivial, by rw [List.length_set, List.length_map],
    map_panelId_set _ _ _ hlt, hlt⟩

/-- A concrete Driver input for the C7 witness: two slices, YELLOW active. -/
def yellowActiveInput : DriverInput :=
  { frameSlices := [[4, 5], [6]]
    colorPanelIds := [5, 4, 6]
    colors := [⟨255, 0, 0⟩, ⟨255, 255, 0⟩, ⟨0, 255, 0⟩]
    transitionTime := 50
    currentColorIndex := 1 }

/-- Witness for C7 at a concrete invocation. -/
theorem frame_count_and_bounds_witness : framesWellFormed yellowActiveInput :=
  frame_count_and_bounds yellowActiveInput (by decide) (by decide)

/-!  ## Lemmas about the Selector -/

theorem getD_map_length (slices : List (List Int)) (j : Nat)
    (hj : j < slices.length) :
    (slices.map List.length).getD j 0 = (slices.getD j []).length := by
  have hj' : j < (slices.map List.length).length := by simpa using hj
  simp [List.getD_eq_getElem?_getD, List.getElem?_eq_getElem hj,
    List.getElem?_eq_getElem hj']

/-- With at most 61 slices, every slice index is within distance 30 of the
middle index, strictly below the scan's sentinel 31. -/
theorem distM_lt_sentinel (N i : Nat) (h61 : N ≤ 61) (hi : i < N) :
    distM (middleFrameSliceIndex N) i < 31 := by
  simp only [distM, middleFrameSliceIndex]
  omega

/-- When no slice has 3 or more panels the scan never updates and the
Selector falls back to the middle index. -/
theorem middlest_of_no_qual (slices : List (List Int))
    (hno : ∀ i, i < slices.length → (slices.getD i []).length < 3) :
    middlestFrameSliceIndex slices =
      (middleFrameSliceIndex slices.length : Int) := by
  simp only [middlestFrameSliceIndex]
  rcases scanAux_spec (middleFrameSliceIndex slices.length)
      (slices.map List.length) 0 31 (-1) with ⟨heq, _⟩ |
      ⟨j, hj, hq, _, _, _⟩
  · simp [heq]
  · rw [List.length_map] at hj
    rw [getD_map_length _ _ hj] at hq
    exact absurd hq (by have := hno j hj; omega)

/-- The chosen slice index is a valid nonnegative index. -/
theorem middlest_nonneg_lt (slices : List (List Int))
    (h1 : 1 ≤ slices.length) :
    0 ≤ middlestFrameSliceIndex slices ∧
      (middlestFrameSliceIndex slices).toNat < slices.length := by
  simp only [middlestFrameSliceIndex]
  rcases scanAux_spec (middleFrameSliceIndex slices.length)
      (slices.map List.length) 0 31 (-1) with ⟨heq, _⟩ |
      ⟨j, hj, _, heq, _, _⟩
  · rw [heq]
    constructor
    · simp
    · simp [middleFrameSliceIndex]
      omega
  · rw [List.length_map] at hj
    rw [heq]
    have hne : ((0 + j : Nat) : Int) ≠ -1 := by omega
    constructor
    · simp [hne]
    · simp [hne]
      omega

theorem middlestPanelIds_perm (L : Layout) :
    (middlestPanelIds L).Perm (chosenSlice L) :=
  List.perm_insertionSort _ _

theorem middlestPanelIds_sorted (L : Layout) :
    List.Sorted (descY L.y) (middlestPanelIds L) :=
  List.sorted_insertionSort _ _

/-- The property claim C3 asserts of the slice choice: if no slice has 3 or
more panels the Selector picks the slice at the middle index itself, and
whenever some slice qualifies (has at least 3 panels), the chosen slice
qualifies and is the qualifying slice closest to the middle index, the
lowest index winning exact distance ties. -/
def selectorChoiceOK (slices : List (List Int)) : Prop :=
  ((∀ i, i < slices.length → (slices.getD i []).length < 3) →
      middlestFrameSliceIndex slices =
        (middleFrameSliceIndex slices.length : Int))
  ∧ (∀ q, q < slices.length → 3 ≤ (slices.getD q []).length →
      ∃ j, j < slices.length ∧ 3 ≤ (slices.getD j []).length ∧
        middlestFrameSliceIndex slices = (j : Int) ∧
        ∀ k, k < slices.length → 3 ≤ (slices.getD k []).length →
          (distM (middleFrameSliceIndex slices.length) j ≤
              distM (middleFrameSliceIndex slices.length) k ∧
           (distM (middleFrameSliceIndex slices.length) k =
              distM (middleFrameSliceIndex slices.length) j → j ≤ k)))

/-- C3 (amended: at most 61 slices, so that every distance stays strictly
below the sentinel 31 and any qualifying slice replaces it; with 62 or more
slices a qualifying slice at distance 31 or more is ignored, see the
counterexample). -/
theorem selector_picks_closest (slices : List (List Int))
    (h1 : 1 ≤ slices.length) (h61 : slices.length ≤ 61) :
    selectorChoiceOK slices := by
  constructor
  · exact middlest_of_no_qual slices
  · intro q hq hq3
    rcases scanAux_spec (middleFrameSliceIndex slices.length)
        (slices.map List.length) 0 31 (-1) with ⟨_, hall⟩ |
        ⟨j, hj, hqj, heq, _, hmin⟩
    · exfalso
      have hq' : q < (slices.map List.length).length := by simpa using hq
      have h31 := hall q hq' (by rw [getD_map_length _ _ hq]; exact hq3)
      simp only [Nat.zero_add] at h31
      have hd := distM_lt_sentinel slices.length q h61 hq
      omega
    · rw [List.length_map] at hj
      simp only [Nat.zero_add] at heq hmin
      rw [getD_map_length _ _ hj] at hqj
      refine ⟨j, hj, hqj, ?_, ?_⟩
      · simp only [middlestFrameSliceIndex]
        rw [heq]
        have hne : ((0 + j : Nat) : Int) ≠ -1 := by omega
        simp [hne]
      · intro k hk hk3
        have hk' : k < (slices.map List.length).length := by simpa using hk
        have h2 := hmin k hk' (by rw [getD_map_length _ _ hk]; exact hk3)
        simp only [Nat.zero_add] at h2
        rcases h2 with h2 | ⟨h2a, h2b⟩
        · exact ⟨le_of_lt h2, fun hEq => absurd (hEq ▸ h2) (lt_irrefl _)⟩
        · exact ⟨le_of_eq h2a, fun _ => h2b⟩

/-- Witness for C3 on a concrete 3-slice layout whose middle slice has 3
panels. -/
theorem selector_picks_closest_witness :
    selectorChoiceOK [[1], [2, 3, 4], [5]] :=
  selector_picks_closest [[1], [2, 3, 4], [5]] (by decide) (by decide)

/-- 62 slices: 61 singletons followed by one 3-panel slice at index 61.  The
middle index is 30 and the only qualifying slice sits at distance 31, so the
scan's sentinel is never beaten. -/
def farSlices : List (List Int) :=
  (List.range 61).map (fun i => [(i : Int)]) ++ [[100, 101, 102]]

/-- Counterexample for C3 as stated: in `farSlices` a qualifying slice
exists (index 61), yet the Selector falls back to the middle slice 30, which
has a single panel — so the chosen slice is not the qualifying slice closest
to the middle, and the qualifying slice did not replace the sentinel. -/
theorem selector_misses_far_slice :
    middlestFrameSliceIndex farSlices = 30 ∧
    3 ≤ (farSlices.getD 61 []).length ∧
    (farSlices.getD 30 []).length = 1 := by
  refine ⟨by decide, by decide, by decide⟩

/-- C1: within the chosen slice the Selector sorts the panel ids by centroid
y-coordinate descending (the sorted list is a permutation of the chosen
slice, ordered by `descY`), and binds the slots by the sorted list's size:
3 or more → RED/YELLOW/GREEN get sorted identifiers 0/1/2; exactly 2 → RED
gets identifier 0, YELLOW the ignored sentinel, GREEN identifier 1;
exactly 1 → all three slots get the single identifier. -/
theorem degradation_binding (L : Layout) :
    ((middlestPanelIds L).Perm (chosenSlice L) ∧
      List.Sorted (descY L.y) (middlestPanelIds L))
    ∧ (3 ≤ (middlestPanelIds L).length →
        colorPanelIds L = [(middlestPanelIds L).getD 0 0,
          (middlestPanelIds L).getD 1 0, (middlestPanelIds L).getD 2 0])
    ∧ ((middlestPanelIds L).length = 2 →
        colorPanelIds L = [(middlestPanelIds L).getD 0 0, IGNORED_PANEL_ID,
          (middlestPanelIds L).getD 1 0])
    ∧ ((middlestPanelIds L).length = 1 →
        ∃ p, middlestPanelIds L = [p] ∧ colorPanelIds L = [p, p, p]) := by
  refine ⟨⟨middlestPanelIds_perm L, middlestPanelIds_sorted L⟩, ?_, ?_, ?_⟩
  · intro h3
    simp only [colorPanelIds]
    rw [if_pos h3]
  · intro h2
    simp only [colorPanelIds]
    rw [if_neg (by omega), if_pos h2]
  · intro hl
    obtain ⟨p, hp⟩ := List.length_eq_one.mp hl
    refine ⟨p, hp, ?_⟩
    simp only [colorPanelIds]
    rw [if_neg (by omega), if_neg (by omega), hp]
    simp

/-- A one-slice layout with three panels whose centroid y-coordinate equals
the panel id. -/
def layoutThreeStack : Layout :=
  { y := fun p => (p : ℚ), slices := [[1, 2, 3]] }

/-- Witness for C1: the three-panel binding case evaluated concretely. -/
theorem degradation_binding_witness :
    3 ≤ (middlestPanelIds layoutThreeStack).length ∧
      colorPanelIds layoutThreeStack =
        [(middlestPanelIds layoutThreeStack).getD 0 0,
         (middlestPanelIds layoutThreeStack).getD 1 0,
         (middlestPanelIds layoutThreeStack).getD 2 0] :=
  ⟨by decide, (degradation_binding layoutThreeStack).2.1 (by decide)⟩

/-- C8 (amended: the 2-panel binding concerns the slice the Selector
actually chooses — with no slice reaching 3 panels the scan falls back to
the middle slice, so the hypothesis is that the middle slice has exactly 2
panels; a richest 2-panel slice away from the middle is not chosen, see the
counterexample). -/
theorem two_panel_binding (L : Layout)
    (hno : ∀ s ∈ L.slices, s.length < 3)
    (h2 : (L.slices.getD (middleFrameSliceIndex L.slices.length) []).length
        = 2) :
    ∃ a b, middlestPanelIds L = [a, b] ∧ L.y b ≤ L.y a ∧
      (L.slices.getD (middleFrameSliceIndex L.slices.length) []).Perm [a, b] ∧
      colorPanelIds L = [a, IGNORED_PANEL_ID, b] := by
  have hmid : middlestFrameSliceIndex L.slices =
      (middleFrameSliceIndex L.slices.length : Int) :=
    middlest_of_no_qual L.slices (fun i hi => by
      have hg : L.slices.getD i [] = L.slices[i] := by
        simp [List.getD_eq_getElem?_getD, List.getElem?_eq_getElem hi]
      rw [hg]
      exact hno _ (List.getElem_mem hi))
  have hchosen : chosenSlice L =
      L.slices.getD (middleFrameSliceIndex L.slices.length) [] := by
    simp only [chosenSlice, hmid, Int.toNat_ofNat]
  have hperm := middlestPanelIds_perm L
  have hsorted := middlestPanelIds_sorted L
  have hlen : (middlestPanelIds L).length = 2 := by
    rw [hperm.length_eq, hchosen, h2]
  obtain ⟨a, b, hab⟩ := List.length_eq_two.mp hlen
  refine ⟨a, b, hab, ?_, ?_, ?_⟩
  · rw [hab] at hsorted
    exact (List.sorted_cons.mp hsorted).1 b (by simp)
  · rw [← hchosen]
    rw [hab] at hperm
    exact hperm.symm
  · simp only [colorPanelIds]
    rw [if_neg (by omega), if_pos hlen, hab]
    simp

/-- A one-slice layout with two stacked panels. -/
def layoutTwoTall : Layout :=
  { y := fun p => (p : ℚ), slices := [[1, 2]] }

/-- Witness for C8 on a concrete layout whose middle slice has exactly two
panels. -/
theorem two_panel_binding_witness :
    ∃ a b, middlestPanelIds layoutTwoTall = [a, b] ∧
      layoutTwoTall.y b ≤ layoutTwoTall.y a ∧
      (layoutTwoTall.slices.getD
        (middleFrameSliceIndex layoutTwoTall.slices.length) []).Perm [a, b] ∧
      colorPanelIds layoutTwoTall = [a, IGNORED_PANEL_ID, b] :=
  two_panel_binding layoutTwoTall (by decide) (by decide)

/-- Three slices whose richest slice (2 panels) is at the left, away from
the middle slice, which holds a single panel. -/
def layoutRichSide : Layout :=
  { y := fun p => (p : ℚ), slices := [[1, 2], [3], [4]] }

/-- Counterexample for C8 as stated: the richest slice of `layoutRichSide`
has exactly 2 panels, yet the Selector (falling back to the 1-panel middle
slice) binds YELLOW to panel 3 rather than to the ignored sentinel. -/
theorem richest_two_not_sentinel :
    (∀ s ∈ layoutRichSide.slices, s.length ≤ 2) ∧
    (∃ s ∈ layoutRichSide.slices, s.length = 2) ∧
    (colorPanelIds layoutRichSide).getD 1 0 ≠ IGNORED_PANEL_ID := by
  exact ⟨by decide, by decide, by decide⟩

/-- The Selection invariant claim C10 asserts: the slot bindings have length
3, the RED and GREEN slots hold real (non-sentinel) panel ids from the
chosen slice, and the YELLOW slot is either the ignored sentinel or likewise
a real panel id from the chosen slice. -/
def selectionInvariant (L : Layout) : Prop :=
  (colorPanelIds L).length = 3 ∧
  (colorPanelIds L).getD 0 0 ∈ chosenSlice L ∧
  (colorPanelIds L).getD 2 0 ∈ chosenSlice L ∧
  (colorPanelIds L).getD 0 0 ≠ IGNORED_PANEL_ID ∧
  (colorPanelIds L).getD 2 0 ≠ IGNORED_PANEL_ID ∧
  ((colorPanelIds L).getD 1 0 = IGNORED_PANEL_ID ∨
    ((colorPanelIds L).getD 1 0 ∈ chosenSlice L ∧
     (colorPanelIds L).getD 1 0 ≠ IGNORED_PANEL_ID))

/-- C10: after any Selector run on a layout meeting the preconditions (at
least one slice, every slice nonempty, no panel id equal to the sentinel
`-1`), the RED and GREEN slots are bound to real panel ids from the chosen
slice and only YELLOW can carry the ignored sentinel — which is why the
Driver's walk guards only the YELLOW comparison against the sentinel. -/
theorem selection_invariant_holds (L : Layout)
    (h1 : 1 ≤ L.slices.length)
    (hne : ∀ s ∈ L.slices, s ≠ [])
    (hid : ∀ s ∈ L.slices, ∀ p ∈ s, p ≠ IGNORED_PANEL_ID) :
    selectionInvariant L := by
  have hlt := (middlest_nonneg_lt L.slices h1).2
  have hmem_slices : chosenSlice L ∈ L.slices := by
    have hg : chosenSlice L =
        L.slices[(middlestFrameSliceIndex L.slices).toNat] := by
      simp [chosenSlice, List.getD_eq_getElem?_getD,
        List.getElem?_eq_getElem hlt]
    rw [hg]
    exact List.getElem_mem hlt
  have hch_len : 1 ≤ (chosenSlice L).length := by
    cases hc : chosenSlice L with
    | nil => exact absurd hc (hne _ hmem_slices)
    | cons x xs => simp
  have hperm := middlestPanelIds_perm L
  have hs_len : (middlestPanelIds L).length = (chosenSlice L).length :=
    hperm.length_eq
  have hmem_of : ∀ i, i < (middlestPanelIds L).length →
      (middlestPanelIds L).getD i 0 ∈ chosenSlice L ∧
      (middlestPanelIds L).getD i 0 ≠ IGNORED_PANEL_ID := by
    intro i hi
    have hg : (middlestPanelIds L).getD i 0 = (middlestPanelIds L)[i] := by
      simp [List.getD_eq_getElem?_getD, List.getElem?_eq_getElem hi]
    have hx : (middlestPanelIds L).getD i 0 ∈ middlestPanelIds L := by
      rw [hg]
      exact List.getElem_mem hi
    have hx' := hperm.mem_iff.mp hx
    exact ⟨hx', hid _ hmem_slices _ hx'⟩
  by_cases h3 : 3 ≤ (middlestPanelIds L).length
  · have hcp : colorPanelIds L = [(middlestPanelIds L).getD 0 0,
        (middlestPanelIds L).getD 1 0, (middlestPanelIds L).getD 2 0] := by
      simp only [colorPanelIds]
      rw [if_pos h3]
    obtain ⟨hm0, hn0⟩ := hmem_of 0 (by omega)
    obtain ⟨hm1, hn1⟩ := hmem_of 1 (by omega)
    obtain ⟨hm2, hn2⟩ := hmem_of 2 (by omega)
    rw [selectionInvariant, hcp]
    exact ⟨rfl, hm0, hm2, hn0, hn2, Or.inr ⟨hm1, hn1⟩⟩
  · by_cases h2 : (middlestPanelIds L).length = 2
    · have hcp : colorPanelIds L = [(middlestPanelIds L).getD 0 0,
          IGNORED_PANEL_ID, (middlestPanelIds L).getD 1 0] := by
        simp only [colorPanelIds]
        rw [if_neg h3, if_pos h2]
      obtain ⟨hm0, hn0⟩ := hmem_of 0 (by omega)
      obtain ⟨hm1, hn1⟩ := hmem_of 1 (by omega)
      rw [selectionInvariant, hcp]
      exact ⟨rfl, hm0, hm1, hn0, hn1, Or.inl rfl⟩
    · have hcp : colorPanelIds L = [(middlestPanelIds L).getD 0 0,
          (middlestPanelIds L).getD 0 0, (middlestPanelIds L).getD 0 0] := by
        simp only [colorPanelIds]
        rw [if_neg h3, if_neg h2]
      obtain ⟨hm0, hn0⟩ := hmem_of 0 (by omega)
      rw [selectionInvariant, hcp]
      exact ⟨rfl, hm0, hm0, hn0, hn0, Or.inr ⟨hm0, hn0⟩⟩

/-- A two-slice layout: three stacked panels in the first slice, one in the
second. -/
def layoutMixed : Layout :=
  { y := fun p => (p : ℚ), slices := [[1, 2, 3], [4]] }

/-- Witness for C10 at a concrete layout. -/
theorem selection_invariant_witness : selectionInvariant layoutMixed :=
  selection_invariant_holds layoutMixed (by decide) (by decide) (by decide)

end Semaphore
